import Mathlib

/-!
Formal model of the subnet-allocation core of the EZ-OpenVPN-Toolkit
repository (`subnet_management.py`), shallowly embedded in Lean 4.

Python strings are modelled as lists of characters (`PyStr`), Python
exceptions as an explicit error type (`PyErr`) threaded through `Except`,
and the CSV registry file as an optional list of rows (`FileState`,
`none` = file absent).  IPv4 machinery from the Python standard library
`ipaddress` module is modelled to the extent the repository uses it
(dotted-decimal parsing, prefix lengths, non-strict host-bit masking,
network overlap).  IPv6 inputs are outside the modelled domain.
-/

/-- Python strings, modelled as lists of characters. -/
abbrev PyStr := List Char

/-- Convert a Lean string literal to the model's string type. -/
def toL (s : String) : PyStr := s.toList

/-- The Python exceptions that the modelled module can raise.
`valueError` also stands for its subclass `ipaddress.AddressValueError`. -/
inductive PyErr where
  | valueError (msg : PyStr)
  | keyError (key : PyStr)
deriving DecidableEq

/-- Python `str.isspace` characters relevant to `strip`/`split`:
space, tab, newline, carriage return, vertical tab, form feed,
identified by code point. -/
def pyIsSpace (c : Char) : Bool :=
  c.toNat = 32 || c.toNat = 9 || c.toNat = 10 || c.toNat = 13 || c.toNat = 11 || c.toNat = 12

/-- ASCII decimal digit test (Python `str.isdigit` restricted to ASCII,
which is what `isascii() and isdigit()` checks in `ipaddress`),
by code point: 48 … 57. -/
def isDigitChar (c : Char) : Bool := 48 ≤ c.toNat && c.toNat ≤ 57

/-- Numeric value of an ASCII digit character. -/
def digitVal (c : Char) : Nat := c.toNat - 48

/-- Value of a string of decimal digits (Python `int(s, 10)`). -/
def digitsToNat (cs : PyStr) : Nat := cs.foldl (fun a c => a * 10 + digitVal c) 0

/-- Decimal digit character for a value below 10. -/
def digitChar (d : Nat) : Char := Char.ofNat (48 + d)

/-- Fuel-driven decimal rendering of a natural number (Python `str(n)`).
Structural in the fuel so that it reduces in the kernel. -/
def natDigitsAux : Nat → Nat → PyStr
  | 0, _ => []
  | fuel + 1, n => if n < 10 then [digitChar n] else natDigitsAux fuel (n / 10) ++ [digitChar (n % 10)]

/-- Decimal rendering of a natural number (Python `str(n)`). -/
def natDigits (n : Nat) : PyStr := natDigitsAux (n + 1) n

/-- Split a character list at every occurrence of `sep`
(Python `s.split(sep)` semantics: `"".split(sep) == [""]`). -/
def splitOn (sep : Char) : PyStr → List PyStr
  | [] => [[]]
  | c :: rest =>
    if c = sep then [] :: splitOn sep rest
    else
      match splitOn sep rest with
      | [] => [[c]]
      | p :: ps => (c :: p) :: ps

/-- Python `str.strip()`: drop leading and trailing whitespace. -/
def pyStrip (cs : PyStr) : PyStr :=
  ((cs.dropWhile pyIsSpace).reverse.dropWhile pyIsSpace).reverse

/-- Worker for Python `str.split()` with no separator: split on runs of
whitespace, discarding empty groups.  `acc` holds the current group,
reversed. -/
def pySplitWsAux : PyStr → PyStr → List PyStr
  | [], acc => if acc = [] then [] else [acc.reverse]
  | c :: rest, acc =>
    if pyIsSpace c then
      if acc = [] then pySplitWsAux rest [] else acc.reverse :: pySplitWsAux rest []
    else pySplitWsAux rest (c :: acc)

/-- Python `str.split()` with no separator. -/
def pySplitWs (cs : PyStr) : List PyStr := pySplitWsAux cs []

/-- Fuel-driven count of set bits (Python `bin(n).count("1")`). -/
def popcountAux : Nat → Nat → Nat
  | 0, _ => 0
  | fuel + 1, n => if n = 0 then 0 else n % 2 + popcountAux fuel (n / 2)

/-- Number of set bits in `n` (Python `bin(n).count("1")`); the fuel `n`
is enough because `n` has at most `n` binary digits. -/
def popcount (n : Nat) : Nat := popcountAux n n

/-- Parse one dotted-decimal octet the way `ipaddress._parse_octet` does:
ASCII digits only, at most three of them, value at most 255, and no
leading zero. -/
def parseOctet (cs : PyStr) : Option Nat :=
  if cs = [] then none
  else if ¬ cs.all isDigitChar then none
  else if cs.length > 3 then none
  else if digitsToNat cs > 255 then none
  else if cs.length > 1 ∧ cs.head? = some '0' then none
  else some (digitsToNat cs)

/-- Parse a dotted-decimal IPv4 address into its 32-bit integer value
(`ipaddress.IPv4Address(s)`): exactly four octets separated by dots. -/
def parseIPv4 (cs : PyStr) : Option Nat :=
  match splitOn '.' cs with
  | [a, b, c, d] => do
    let oa ← parseOctet a
    let ob ← parseOctet b
    let oc ← parseOctet c
    let od ← parseOctet d
    some (((oa * 256 + ob) * 256 + oc) * 256 + od)
  | _ => none

/-- The 32-bit netmask integer with `k` leading one bits. -/
def maskOfLen (k : Nat) : Nat := 2 ^ 32 - 2 ^ (32 - k)

/-- Recover a prefix length from a contiguous netmask integer
(`ipaddress._prefix_from_ip_int`), extensionally: the unique `k ≤ 32`
whose netmask equals `m`, if any. -/
def lenFromMask (m : Nat) : Option Nat :=
  (List.range 33).find? (fun k => maskOfLen k = m)

/-- `ipaddress` fallback when the text after the slash is not a plain
prefix length: parse it as a dotted-decimal netmask, else as a hostmask. -/
def netmaskFallback (cs : PyStr) : Option Nat :=
  match parseIPv4 cs with
  | none => none
  | some ip =>
    match lenFromMask ip with
    | some k => some k
    | none => lenFromMask (4294967295 - ip)

/-- Parse the prefix part of a network string
(`IPv4Network._make_netmask` on a string): a run of ASCII digits valued
at most 32, else the dotted netmask/hostmask fallback. -/
def parsePrefixLen (cs : PyStr) : Option Nat :=
  if cs ≠ [] ∧ cs.all isDigitChar then
    if digitsToNat cs ≤ 32 then some (digitsToNat cs) else netmaskFallback cs
  else netmaskFallback cs

/-- `ipaddress.IPv4Network`: a network address (32-bit integer) and a
prefix length.  Python equality compares exactly these two fields. -/
structure IPv4Network where
  network_address : Nat
  prefixlen : Nat
deriving DecidableEq

/-- Highest address of the network (`IPv4Network.broadcast_address`). -/
def IPv4Network.broadcast_address (n : IPv4Network) : Nat :=
  n.network_address + (2 ^ (32 - n.prefixlen) - 1)

/-- Python `address in network` for the modelled networks:
the address lies between network and broadcast addresses. -/
def IPv4Network.containsAddr (n : IPv4Network) (a : Nat) : Bool :=
  decide (n.network_address ≤ a) && decide (a ≤ n.broadcast_address)

/-- `IPv4Network.overlaps`, exactly as the standard library computes it:
either network's endpoints inside the other. -/
def IPv4Network.overlaps (self other : IPv4Network) : Bool :=
  other.containsAddr self.network_address ||
  other.containsAddr self.broadcast_address ||
  self.containsAddr other.network_address ||
  self.containsAddr other.broadcast_address

/-- Dotted-decimal rendering of a 32-bit address (`str(IPv4Address)`). -/
def renderIP (a : Nat) : PyStr :=
  natDigits (a / 16777216 % 256) ++ ('.' :: (natDigits (a / 65536 % 256) ++
    ('.' :: (natDigits (a / 256 % 256) ++ ('.' :: natDigits (a % 256))))))

/-- CIDR rendering of a network (`str(IPv4Network)`). -/
def IPv4Network.render (n : IPv4Network) : PyStr :=
  renderIP n.network_address ++ '/' :: natDigits n.prefixlen

/-- Build a network from a parsed address and prefix length
(`IPv4Network.__init__`): in strict mode reject set host bits, in
non-strict mode mask them off.  Masking with the contiguous netmask is
clearing the low `32 - plen` bits, written arithmetically. -/
def mkNetwork (addr plen : Nat) (strict : Bool) : Except PyErr IPv4Network :=
  if strict then
    if addr % 2 ^ (32 - plen) = 0 then .ok ⟨addr, plen⟩
    else .error (.valueError (renderIP addr ++ '/' :: natDigits plen ++ toL " has host bits set"))
  else .ok ⟨addr - addr % 2 ^ (32 - plen), plen⟩

/-- `ipaddress.ip_network(s, strict)` restricted to IPv4: split on the
single permitted slash, parse address and prefix, build the network.
Failure messages are abbreviated where no caller inspects them. -/
def ipNetwork (cs : PyStr) (strict : Bool) : Except PyErr IPv4Network :=
  match splitOn '/' cs with
  | [a] =>
    match parseIPv4 a with
    | some ip => mkNetwork ip 32 strict
    | none => .error (.valueError (cs ++ toL " does not appear to be an IPv4 network"))
  | [a, p] =>
    match parseIPv4 a with
    | some ip =>
      match parsePrefixLen p with
      | some k => mkNetwork ip k strict
      | none => .error (.valueError (cs ++ toL " does not appear to be an IPv4 network"))
    | none => .error (.valueError (cs ++ toL " does not appear to be an IPv4 network"))
  | _ => .error (.valueError (toL "Only one slash permitted in " ++ cs))

/-- The parsing half of `validate_subnet`: strip the input, convert an
`address netmask` pair to CIDR via the netmask's popcount, then parse
the CIDR text non-strictly. -/
def parse_candidate (subnet_input : PyStr) : Except PyErr IPv4Network :=
  if ' ' ∈ pyStrip subnet_input then
    match pySplitWs (pyStrip subnet_input) with
    | [address, netmask] =>
      match parseIPv4 netmask with
      | some m => ipNetwork (address ++ '/' :: natDigits (popcount m)) false
      | none => .error (.valueError (toL "Invalid netmask: " ++ netmask))
    | _ => .error (.valueError (toL "values to unpack mismatch (expected 2)"))
  else ipNetwork (pyStrip subnet_input) false

/-- The overlap loop of `validate_subnet`: parse each existing subnet
text non-strictly, in order, and raise on the first overlap. -/
def checkOverlaps (subnet : IPv4Network) : List PyStr → Except PyErr IPv4Network
  | [] => .ok subnet
  | e :: rest =>
    match ipNetwork e false with
    | .error err => .error err
    | .ok existing_subnet =>
      if subnet.overlaps existing_subnet then
        .error (.valueError (toL "Subnet " ++ subnet.render ++
          toL " overlaps with existing subnet " ++ existing_subnet.render))
      else checkOverlaps subnet rest

/-- Log levels used by the module (`logging.info` / `logging.error`). -/
inductive LogLevel where
  | info
  | error
deriving DecidableEq

/-- One emitted log record. -/
structure LogEntry where
  level : LogLevel
  msg : PyStr
deriving DecidableEq

/-- `validate_subnet(subnet_input, existing_subnets)`: parse the
candidate, scan the existing subnets for overlap, and on the way out
log `Validated subnet: …` at info level on success or
`Invalid subnet: …` at error level before re-raising a `ValueError`
unchanged.  The value is the returned-or-raised result paired with the
log records emitted. -/
def validate_subnet (subnet_input : PyStr) (existing_subnets : List PyStr) :
    Except PyErr IPv4Network × List LogEntry :=
  match (parse_candidate subnet_input).bind (fun n => checkOverlaps n existing_subnets) with
  | .ok n => (.ok n, [⟨.info, toL "Validated subnet: " ++ n.render⟩])
  | .error (.valueError m) => (.error (.valueError m), [⟨.error, toL "Invalid subnet: " ++ m⟩])
  | .error e => (.error e, [])

deriving instance DecidableEq for Except

/-!
## The CSV registry store

The store file is modelled as `none` (file absent) or the list of its
CSV rows, each row a list of cell strings; byte-level CSV quoting is
abstracted away, the row structure is kept exactly.  `csv.DictReader`
takes the first row as the field names; `csv.DictWriter` with field
names `["Name", "Subnet"]` writes a header row and two-cell records.
-/

/-- The on-disk registry file: absent, or its list of rows. -/
abbrev FileState := Option (List (List PyStr))

/-- The header row `Name,Subnet` that `csv.DictWriter.writeheader` emits. -/
def hdrRow : List PyStr := [toL "Name", toL "Subnet"]

/-- Index of the last occurrence of `key` in the field-name row.
`csv.DictReader` builds each record with `dict(zip(fieldnames, row))`,
so with duplicate field names the later occurrence wins. -/
def lastIdxOfAux : List PyStr → PyStr → Nat → Option Nat
  | [], _, _ => none
  | x :: xs, key, i =>
    match lastIdxOfAux xs key (i + 1) with
    | some j => some j
    | none => if x = key then some i else none

/-- Index of the last occurrence of `key` in a field-name row. -/
def lastIdxOf (l : List PyStr) (key : PyStr) : Option Nat := lastIdxOfAux l key 0

/-- `row[key]` on a `csv.DictReader` record: `KeyError` when `key` is
not a field name, the Python `None` restval (modelled as `none`) when
the row is shorter than the field-name list. -/
def dictGetE (header row : List PyStr) (key : PyStr) : Except PyErr (Option PyStr) :=
  match lastIdxOf header key with
  | none => .error (.keyError key)
  | some i => .ok (row.get? i)

/-- `ipaddress.ip_network` applied to a cell value that may be Python
`None` (a `ValueError`, like any non-address argument). -/
def ipNetworkOfCell (s : Option PyStr) (strict : Bool) : Except PyErr IPv4Network :=
  match s with
  | some cs => ipNetwork cs strict
  | none => .error (.valueError (toL "None does not appear to be an IPv4 or IPv6 network"))

/-- `save_subnet_to_csv`: append one `Name,Subnet` record, writing the
header first only when the file does not exist (`os.path.isfile`); an
existing but empty file gets no header.  (The function also emits an
info-level log record; only the file state is modelled here.) -/
def save_subnet_to_csv (file : FileState) (client_name : PyStr) (subnet : IPv4Network) : FileState :=
  match file with
  | none => some [hdrRow, [client_name, subnet.render]]
  | some rows => some (rows ++ [[client_name, subnet.render]])

/-- Loop of `load_existing_subnets`: collect `row["Subnet"]` for every
record (`csv.DictReader` skips rows with no cells at all). -/
def loadLoop (header : List PyStr) : List (List PyStr) → Except PyErr (List (Option PyStr))
  | [] => .ok []
  | row :: rest =>
    if row = [] then loadLoop header rest
    else do
      let s ← dictGetE header row (toL "Subnet")
      let others ← loadLoop header rest
      .ok (s :: others)

/-- `load_existing_subnets`: the `Subnet` column of the store, in file
order; an absent file is an empty registry. -/
def load_existing_subnets (file : FileState) : Except PyErr (List (Option PyStr)) :=
  match file with
  | none => .ok []
  | some [] => .ok []
  | some (header :: data) => loadLoop header data

/-- Loop of `get_subnet_by_name`: return the strict parse of the first
record whose `Name` cell equals `name`. -/
def findLoop (header : List PyStr) (name : PyStr) : List (List PyStr) → Except PyErr (Option IPv4Network)
  | [] => .ok none
  | row :: rest =>
    if row = [] then findLoop header name rest
    else do
      let n ← dictGetE header row (toL "Name")
      if n = some name then do
        let s ← dictGetE header row (toL "Subnet")
        let net ← ipNetworkOfCell s true
        .ok (some net)
      else findLoop header name rest

/-- `get_subnet_by_name`: first-match lookup by exact name, `none` when
the file is absent, empty, or has no matching record. -/
def get_subnet_by_name (file : FileState) (name : PyStr) : Except PyErr (Option IPv4Network) :=
  match file with
  | none => .ok none
  | some [] => .ok none
  | some (header :: data) => findLoop header name data

/-- The two fixed role names excluded by `get_client_subnets`. -/
def roleNames : List PyStr := [toL "openvpn_tunnel_subnet", toL "server_local_private_subnet"]

/-- A Python dict from name cells to networks, as an insertion-ordered
association list with unique keys. -/
abbrev PyDict := List (Option PyStr × IPv4Network)

/-- Python `d[k] = v`: overwrite in place when the key is present,
append otherwise. -/
def pyDictSet (d : PyDict) (k : Option PyStr) (v : IPv4Network) : PyDict :=
  if d.any (fun p => p.1 = k) then d.map (fun p => if p.1 = k then (k, v) else p)
  else d ++ [(k, v)]

/-- Python `d.get(k)`. -/
def pyDictGet (d : PyDict) (k : Option PyStr) : Option IPv4Network :=
  (d.find? (fun p => p.1 = k)).map (fun p => p.2)

/-- Loop of `get_client_subnets`: skip the two role names, parse every
other record's subnet strictly and store it under the record's name,
later duplicates overwriting earlier ones. -/
def clientLoop (header : List PyStr) (acc : PyDict) : List (List PyStr) → Except PyErr PyDict
  | [] => .ok acc
  | row :: rest =>
    if row = [] then clientLoop header acc rest
    else do
      let name ← dictGetE header row (toL "Name")
      if roleNames.any (fun r => name = some r) then clientLoop header acc rest
      else do
        let s ← dictGetE header row (toL "Subnet")
        let net ← ipNetworkOfCell s true
        clientLoop header (pyDictSet acc name net) rest

/-- `get_client_subnets`: every record's name-to-subnet binding except
the two fixed role names. -/
def get_client_subnets (file : FileState) : Except PyErr PyDict :=
  match file with
  | none => .ok []
  | some [] => .ok []
  | some (header :: data) => clientLoop header [] data

/-- One record written back by `csv.DictWriter` in
`remove_client_from_csv`: with field names `Name,Subnet` and the default
`extrasaction="raise"`, a record dict holding any other key is rejected;
otherwise the two cells are emitted, absent values as empty strings. -/
def writeRowBack (header row : List PyStr) : Except PyErr (List PyStr) :=
  if header.any (fun f => ¬ (f = toL "Name" ∨ f = toL "Subnet")) || row.length > header.length then
    .error (.valueError (toL "dict contains fields not in fieldnames"))
  else
    .ok [(match lastIdxOf header (toL "Name") with
          | some i => (row.get? i).getD []
          | none => []),
         (match lastIdxOf header (toL "Subnet") with
          | some i => (row.get? i).getD []
          | none => [])]

/-- The read phase of `remove_client_from_csv`: keep every record whose
`Name` cell differs from `client_name` (all matches are dropped). -/
def keptRows (header : List PyStr) (client_name : PyStr) : List (List PyStr) → Except PyErr (List (List PyStr))
  | [] => .ok []
  | row :: rest =>
    if row = [] then keptRows header client_name rest
    else do
      let n ← dictGetE header row (toL "Name")
      let others ← keptRows header client_name rest
      if n = some client_name then .ok others else .ok (row :: others)

/-- The write phase of `remove_client_from_csv`: serialize the kept
records through `csv.DictWriter`. -/
def writeRows (header : List PyStr) : List (List PyStr) → Except PyErr (List (List PyStr))
  | [] => .ok []
  | row :: rest => do
    let w ← writeRowBack header row
    let ws ← writeRows header rest
    .ok (w :: ws)

/-- `remove_client_from_csv`: read all records, drop those named
`client_name`, then reopen the same path with mode `"w"` (truncating it
in place — there is no temporary file) and write the header and the kept
records.  The value is the final file state when no exception is raised;
mid-write on-disk states are modelled by `remove_write_states`. -/
def remove_client_from_csv (file : FileState) (client_name : PyStr) : Except PyErr FileState :=
  match file with
  | none => .ok none
  | some [] => .ok (some [hdrRow])
  | some (header :: data) => do
    let kept ← keptRows header client_name data
    let written ← writeRows header kept
    .ok (some (hdrRow :: written))

/-- The rows that make it to disk before the first `csv.DictWriter`
serialization failure, if any. -/
def writtenUpTo (header : List PyStr) : List (List PyStr) → List (List PyStr)
  | [] => []
  | row :: rest =>
    match writeRowBack header row with
    | .ok w => w :: writtenUpTo header rest
    | .error _ => []

/-- Every on-disk state of the store observable while
`remove_client_from_csv` runs, in order: the prior contents while the
read phase runs, then — because the code reopens the same path with mode
`"w"` — the truncated empty file, then the file after the header and
after each successive record is written.  A failure at any point leaves
the state reached so far. -/
def remove_write_states (file : FileState) (client_name : PyStr) : List FileState :=
  match file with
  | none => [none]
  | some [] => [some [], some [], some [hdrRow]]
  | some (header :: data) =>
    match keptRows header client_name data with
    | .error _ => [some (header :: data)]
    | .ok kept =>
      let w := writtenUpTo header kept
      some (header :: data) :: some [] ::
        (List.range (w.length + 1)).map (fun i => some (hdrRow :: w.take i))

/-!
## Well-formedness of networks

Every network the Python library constructs has a 32-bit network
address, a prefix length of at most 32, and no set host bits.
-/

/-- Invariant of networks produced by `ipaddress`. -/
def IPv4Network.wf (n : IPv4Network) : Prop :=
  n.network_address < 2 ^ 32 ∧ n.prefixlen ≤ 32 ∧
    n.network_address % 2 ^ (32 - n.prefixlen) = 0

/-!
## Character and digit-string lemmas
-/

theorem isDigitChar_bounds {c : Char} (h : isDigitChar c = true) :
    48 ≤ c.toNat ∧ c.toNat ≤ 57 := by
  simpa only [isDigitChar, Bool.and_eq_true, decide_eq_true_eq] using h

theorem isDigitChar_not_space {c : Char} (h : isDigitChar c = true) : pyIsSpace c = false := by
  obtain ⟨h1, h2⟩ := isDigitChar_bounds h
  simp only [pyIsSpace, Bool.or_eq_false_iff, decide_eq_false_iff_not]
  omega

theorem isDigitChar_ne_dot {c : Char} (h : isDigitChar c = true) : c ≠ '.' := by
  rintro rfl; revert h; decide

theorem isDigitChar_ne_slash {c : Char} (h : isDigitChar c = true) : c ≠ '/' := by
  rintro rfl; revert h; decide

theorem natDigitsAux_all_digits :
    ∀ fuel n, ∀ c ∈ natDigitsAux fuel n, isDigitChar c = true := by
  intro fuel
  induction fuel with
  | zero => intro n c hc; simp [natDigitsAux] at hc
  | succ f ih =>
    intro n c hc
    simp only [natDigitsAux] at hc
    by_cases h : n < 10
    · simp [h] at hc
      subst hc
      interval_cases n <;> decide
    · simp [h, List.mem_append] at hc
      rcases hc with hc | hc
      · exact ih _ c hc
      · subst hc
        have : n % 10 < 10 := Nat.mod_lt _ (by norm_num)
        interval_cases h10 : n % 10 <;> decide

theorem natDigits_all_digits (n : Nat) : ∀ c ∈ natDigits n, isDigitChar c = true :=
  natDigitsAux_all_digits (n + 1) n

theorem natDigits_ne_nil (n : Nat) : natDigits n ≠ [] := by
  unfold natDigits natDigitsAux
  by_cases h : n < 10 <;> simp [h]

set_option maxRecDepth 8000 in
theorem parseOctet_natDigits : ∀ o : Fin 256, parseOctet (natDigits o.val) = some o.val := by
  decide

theorem parseOctet_natDigits_lt {o : Nat} (h : o < 256) : parseOctet (natDigits o) = some o :=
  parseOctet_natDigits ⟨o, h⟩

theorem parsePrefixLen_natDigits : ∀ p : Fin 33, parsePrefixLen (natDigits p.val) = some p.val := by
  decide

theorem parsePrefixLen_natDigits_le {p : Nat} (h : p ≤ 32) :
    parsePrefixLen (natDigits p) = some p :=
  parsePrefixLen_natDigits ⟨p, Nat.lt_succ_of_le h⟩

/-!
## splitOn lemmas
-/

theorem splitOn_ne_nil (sep : Char) (cs : PyStr) : splitOn sep cs ≠ [] := by
  induction cs with
  | nil => simp [splitOn]
  | cons c rest ih =>
    simp only [splitOn]
    by_cases h : c = sep
    · simp [h]
    · simp only [h, if_false]
      cases hs : splitOn sep rest with
      | nil => simp
      | cons p ps => simp

theorem splitOn_of_not_mem {sep : Char} {cs : PyStr} (h : sep ∉ cs) : splitOn sep cs = [cs] := by
  induction cs with
  | nil => rfl
  | cons c rest ih =>
    simp only [List.mem_cons, not_or] at h
    have hcs : c ≠ sep := fun hc => h.1 hc.symm
    simp only [splitOn, hcs, if_false]
    rw [ih h.2]

theorem splitOn_append {sep : Char} {xs : PyStr} (ys : PyStr) (h : sep ∉ xs) :
    splitOn sep (xs ++ sep :: ys) = xs :: splitOn sep ys := by
  induction xs with
  | nil => simp [splitOn]
  | cons c rest ih =>
    simp only [List.mem_cons, not_or] at h
    have hcs : c ≠ sep := fun hc => h.1 hc.symm
    simp only [List.cons_append, splitOn, hcs, if_false, List.append_eq, ih h.2]

theorem mem_splitOn_of_mem {sep : Char} {cs : PyStr} {c : Char} (h : c ∈ cs) :
    c = sep ∨ ∃ p ∈ splitOn sep cs, c ∈ p := by
  induction cs with
  | nil => simp at h
  | cons x rest ih =>
    rcases List.mem_cons.mp h with rfl | hr
    · by_cases hx : c = sep
      · exact Or.inl hx
      · right
        simp only [splitOn, hx, if_false]
        cases hs : splitOn sep rest with
        | nil => exact ⟨[c], by simp⟩
        | cons p ps => exact ⟨c :: p, by simp⟩
    · rcases ih hr with hsep | ⟨p, hp, hcp⟩
      · exact Or.inl hsep
      · right
        by_cases hx : x = sep
        · exact ⟨p, by simp [splitOn, hx, hp], hcp⟩
        · simp only [splitOn, hx, if_false]
          cases hs : splitOn sep rest with
          | nil => exact absurd hs (splitOn_ne_nil sep rest)
          | cons q qs =>
            rw [hs] at hp
            rcases List.mem_cons.mp hp with rfl | hps
            · exact ⟨x :: p, by simp, List.mem_cons_of_mem _ hcp⟩
            · exact ⟨p, List.mem_cons_of_mem _ hps, hcp⟩

/-!
## Charset facts extracted from successful parses
-/

theorem parseOctet_all_digits {cs : PyStr} {o : Nat} (h : parseOctet cs = some o) :
    ∀ c ∈ cs, isDigitChar c = true := by
  intro c hc
  unfold parseOctet at h
  split at h
  · exact absurd h (by simp)
  · split at h
    · exact absurd h (by simp)
    · rename_i hne hall
      rw [not_not] at hall
      exact List.all_eq_true.mp hall c hc

theorem parseIPv4_charset {cs : PyStr} {a : Nat} (h : parseIPv4 cs = some a) :
    ∀ c ∈ cs, c = '.' ∨ isDigitChar c = true := by
  intro c hc
  unfold parseIPv4 at h
  rcases @mem_splitOn_of_mem '.' cs c hc with hdot | ⟨p, hp, hcp⟩
  · exact Or.inl hdot
  · right
    split at h
    · rename_i p1 p2 p3 p4 hsplit
      rw [hsplit] at hp
      simp only [Option.bind_eq_bind, Option.bind_eq_some] at h
      obtain ⟨o1, h1, o2, h2, o3, h3, o4, h4, _⟩ := h
      simp only [List.mem_cons, List.not_mem_nil, or_false] at hp
      rcases hp with rfl | rfl | rfl | rfl
      · exact parseOctet_all_digits h1 c hcp
      · exact parseOctet_all_digits h2 c hcp
      · exact parseOctet_all_digits h3 c hcp
      · exact parseOctet_all_digits h4 c hcp
    · exact absurd h (by simp)

/-!
## strip and whitespace-split lemmas
-/

theorem dropWhile_eq_self_of_head {p : Char → Bool} {l : PyStr}
    (h : ∀ c, l.head? = some c → p c = false) : l.dropWhile p = l := by
  cases l with
  | nil => rfl
  | cons a t => simp [List.dropWhile_cons, h a rfl]

theorem pyStrip_eq_self {cs : PyStr} (h1 : ∀ c, cs.head? = some c → pyIsSpace c = false)
    (h2 : ∀ c, cs.getLast? = some c → pyIsSpace c = false) : pyStrip cs = cs := by
  unfold pyStrip
  rw [dropWhile_eq_self_of_head h1]
  rw [dropWhile_eq_self_of_head (fun c hc => h2 c (by rwa [List.head?_reverse] at hc))]
  exact List.reverse_reverse cs

theorem pyStrip_eq_self_of_all {cs : PyStr} (h : ∀ c ∈ cs, pyIsSpace c = false) :
    pyStrip cs = cs :=
  pyStrip_eq_self
    (fun c hc => h c (List.mem_of_mem_head? (by simp [hc])))
    (fun c hc => h c (List.mem_of_mem_getLast? (by simp [hc])))

theorem pySplitWsAux_no_space {xs : PyStr} (h : ∀ c ∈ xs, pyIsSpace c = false) :
    ∀ acc, acc ≠ [] ∨ xs ≠ [] → pySplitWsAux xs acc = [acc.reverse ++ xs] := by
  induction xs with
  | nil =>
    intro acc hne
    have hacc : acc ≠ [] := by tauto
    simp [pySplitWsAux, hacc]
  | cons c rest ih =>
    intro acc _
    have hc : pyIsSpace c = false := h c (List.mem_cons_self c rest)
    simp only [pySplitWsAux, hc, Bool.false_eq_true, if_false]
    rw [ih (fun x hx => h x (List.mem_cons_of_mem _ hx)) (c :: acc) (Or.inl (by simp))]
    simp

theorem pySplitWsAux_space_split {xs : PyStr} (ys : PyStr)
    (h : ∀ c ∈ xs, pyIsSpace c = false) :
    ∀ acc, acc ≠ [] ∨ xs ≠ [] →
      pySplitWsAux (xs ++ ' ' :: ys) acc = (acc.reverse ++ xs) :: pySplitWsAux ys [] := by
  induction xs with
  | nil =>
    intro acc hne
    have hacc : acc ≠ [] := by tauto
    simp [pySplitWsAux, pyIsSpace, hacc]
  | cons c rest ih =>
    intro acc _
    have hc : pyIsSpace c = false := h c (List.mem_cons_self c rest)
    simp only [List.cons_append, pySplitWsAux, hc, Bool.false_eq_true, if_false, List.append_eq]
    rw [ih (fun x hx => h x (List.mem_cons_of_mem _ hx)) (c :: acc) (Or.inl (by simp))]
    simp

theorem pySplitWs_pair {A M : PyStr} (hA : ∀ c ∈ A, pyIsSpace c = false) (hA0 : A ≠ [])
    (hM : ∀ c ∈ M, pyIsSpace c = false) (hM0 : M ≠ []) :
    pySplitWs (A ++ ' ' :: M) = [A, M] := by
  unfold pySplitWs
  rw [pySplitWsAux_space_split M hA [] (Or.inr hA0)]
  rw [pySplitWsAux_no_space hM [] (Or.inr hM0)]
  simp

/-!
## Rendering round-trips
-/

theorem renderIP_charset (a : Nat) : ∀ c ∈ renderIP a, c = '.' ∨ isDigitChar c = true := by
  intro c hc
  unfold renderIP at hc
  simp only [List.mem_append, List.mem_cons] at hc
  rcases hc with hc | hc | hc | hc | hc | hc | hc
  · exact Or.inr (natDigits_all_digits _ c hc)
  · exact Or.inl hc
  · exact Or.inr (natDigits_all_digits _ c hc)
  · exact Or.inl hc
  · exact Or.inr (natDigits_all_digits _ c hc)
  · exact Or.inl hc
  · exact Or.inr (natDigits_all_digits _ c hc)

theorem dot_not_mem_natDigits (n : Nat) : '.' ∉ natDigits n :=
  fun hmem => isDigitChar_ne_dot (natDigits_all_digits n _ hmem) rfl

theorem slash_not_mem_natDigits (n : Nat) : '/' ∉ natDigits n :=
  fun hmem => isDigitChar_ne_slash (natDigits_all_digits n _ hmem) rfl

theorem slash_not_mem_renderIP (a : Nat) : '/' ∉ renderIP a := by
  intro hmem
  rcases renderIP_charset a _ hmem with h | h
  · exact absurd h (by decide)
  · exact isDigitChar_ne_slash h rfl

theorem renderIP_parse {a : Nat} (h : a < 2 ^ 32) : parseIPv4 (renderIP a) = some a := by
  have hsplit : splitOn '.' (renderIP a) =
      [natDigits (a / 16777216 % 256), natDigits (a / 65536 % 256),
       natDigits (a / 256 % 256), natDigits (a % 256)] := by
    unfold renderIP
    rw [splitOn_append _ (dot_not_mem_natDigits _), splitOn_append _ (dot_not_mem_natDigits _),
      splitOn_append _ (dot_not_mem_natDigits _), splitOn_of_not_mem (dot_not_mem_natDigits _)]
  have h0 : parseOctet (natDigits (a / 16777216 % 256)) = some (a / 16777216 % 256) :=
    parseOctet_natDigits_lt (Nat.mod_lt _ (by norm_num))
  have h1 : parseOctet (natDigits (a / 65536 % 256)) = some (a / 65536 % 256) :=
    parseOctet_natDigits_lt (Nat.mod_lt _ (by norm_num))
  have h2 : parseOctet (natDigits (a / 256 % 256)) = some (a / 256 % 256) :=
    parseOctet_natDigits_lt (Nat.mod_lt _ (by norm_num))
  have h3 : parseOctet (natDigits (a % 256)) = some (a % 256) :=
    parseOctet_natDigits_lt (Nat.mod_lt _ (by norm_num))
  unfold parseIPv4
  rw [hsplit]
  simp only [h0, h1, h2, h3, Option.bind_eq_bind, Option.some_bind, Option.some.injEq]
  omega

theorem parseOctet_le {cs : PyStr} {o : Nat} (h : parseOctet cs = some o) : o ≤ 255 := by
  unfold parseOctet at h
  split at h
  · simp at h
  · split at h
    · simp at h
    · split at h
      · simp at h
      · split at h
        · simp at h
        · split at h
          · simp at h
          · rename_i hle _
            simp only [Option.some.injEq] at h
            omega

theorem parseIPv4_lt {cs : PyStr} {a : Nat} (h : parseIPv4 cs = some a) : a < 2 ^ 32 := by
  unfold parseIPv4 at h
  split at h
  · simp only [Option.bind_eq_bind, Option.bind_eq_some, Option.some.injEq] at h
    obtain ⟨o1, h1, o2, h2, o3, h3, o4, h4, hval⟩ := h
    have b1 := parseOctet_le h1
    have b2 := parseOctet_le h2
    have b3 := parseOctet_le h3
    have b4 := parseOctet_le h4
    omega
  · simp at h

theorem lenFromMask_le {m k : Nat} (h : lenFromMask m = some k) : k ≤ 32 := by
  unfold lenFromMask at h
  have hmem := List.mem_of_find?_eq_some h
  have := List.mem_range.mp hmem
  omega

theorem netmaskFallback_le {cs : PyStr} {p : Nat} (h : netmaskFallback cs = some p) : p ≤ 32 := by
  unfold netmaskFallback at h
  split at h
  · simp at h
  · split at h
    · rename_i hsome
      rw [Option.some.injEq] at h
      exact h ▸ lenFromMask_le hsome
    · exact lenFromMask_le h

theorem parsePrefixLen_le {cs : PyStr} {p : Nat} (h : parsePrefixLen cs = some p) : p ≤ 32 := by
  unfold parsePrefixLen at h
  split at h
  · split at h
    · rename_i hle
      rw [Option.some.injEq] at h
      omega
    · exact netmaskFallback_le h
  · exact netmaskFallback_le h

theorem sub_mod_self_mod (a m : Nat) : (a - a % m) % m = 0 := by
  have hd := Nat.div_add_mod a m
  have : a - a % m = m * (a / m) := by omega
  rw [this]
  exact Nat.mul_mod_right m (a / m)

theorem mkNetwork_wf {addr plen : Nat} {strict : Bool} {n : IPv4Network}
    (ha : addr < 2 ^ 32) (hp : plen ≤ 32) (h : mkNetwork addr plen strict = .ok n) : n.wf := by
  unfold mkNetwork at h
  split at h
  · split at h
    · rename_i hz
      rw [Except.ok.injEq] at h
      subst h
      exact ⟨ha, hp, hz⟩
    · simp at h
  · rw [Except.ok.injEq] at h
    subst h
    refine ⟨Nat.lt_of_le_of_lt (Nat.sub_le _ _) ha, hp, sub_mod_self_mod _ _⟩

theorem ipNetwork_wf {cs : PyStr} {strict : Bool} {n : IPv4Network}
    (h : ipNetwork cs strict = .ok n) : n.wf := by
  unfold ipNetwork at h
  split at h
  · split at h
    · rename_i hip
      exact mkNetwork_wf (parseIPv4_lt hip) (by norm_num) h
    · simp at h
  · split at h
    · rename_i hip
      split at h
      · rename_i hpl
        exact mkNetwork_wf (parseIPv4_lt hip) (parsePrefixLen_le hpl) h
      · simp at h
    · simp at h
  · simp at h

theorem ipNetwork_render_roundtrip {n : IPv4Network} (hwf : n.wf) :
    ipNetwork n.render true = .ok n := by
  obtain ⟨ha, hp, hm⟩ := hwf
  have hsplit : splitOn '/' n.render = [renderIP n.network_address, natDigits n.prefixlen] := by
    unfold IPv4Network.render
    rw [splitOn_append _ (slash_not_mem_renderIP _), splitOn_of_not_mem (slash_not_mem_natDigits _)]
  unfold ipNetwork
  rw [hsplit]
  simp only [renderIP_parse ha, parsePrefixLen_natDigits_le hp]
  unfold mkNetwork
  simp [hm]

/-!
## validate_subnet structure lemmas
-/

theorem checkOverlaps_ok_eq {s v : IPv4Network} {E : List PyStr}
    (h : checkOverlaps s E = .ok v) : v = s := by
  induction E with
  | nil =>
    rw [checkOverlaps, Except.ok.injEq] at h
    exact h.symm
  | cons e rest ih =>
    rw [checkOverlaps] at h
    split at h
    · simp at h
    · split at h
      · simp at h
      · exact ih h

theorem validate_subnet_fst (S : PyStr) (E : List PyStr) :
    (validate_subnet S E).1 = (parse_candidate S).bind (fun n => checkOverlaps n E) := by
  unfold validate_subnet
  cases hcore : (parse_candidate S).bind (fun n => checkOverlaps n E) with
  | ok n => simp
  | error e => cases e <;> simp

theorem parse_candidate_no_space {S : PyStr} (h : ∀ c ∈ S, pyIsSpace c = false) :
    parse_candidate S = ipNetwork S false := by
  unfold parse_candidate
  rw [pyStrip_eq_self_of_all h]
  have hns : ¬ (' ' ∈ S) := fun hmem => by
    have := h ' ' hmem
    simp [pyIsSpace] at this
  simp [hns]

/-!
## parse_candidate on the two textual forms
-/

theorem parseIPv4_nonempty {m : Nat} {M : PyStr} (hM : parseIPv4 M = some m) : M ≠ [] := by
  rintro rfl
  exact Option.noConfusion hM

theorem parseIPv4_no_space {m : Nat} {M : PyStr} (hM : parseIPv4 M = some m) :
    ∀ c ∈ M, pyIsSpace c = false := by
  intro c hc
  rcases parseIPv4_charset hM c hc with rfl | hd
  · decide
  · exact isDigitChar_not_space hd

theorem pyStrip_pair {A M : PyStr} (hA0 : A ≠ []) (hAs : ∀ c ∈ A, pyIsSpace c = false)
    (hM0 : M ≠ []) (hMs : ∀ c ∈ M, pyIsSpace c = false) :
    pyStrip (A ++ ' ' :: M) = A ++ ' ' :: M := by
  apply pyStrip_eq_self
  · intro c hc
    rw [List.head?_append_of_ne_nil _ hA0] at hc
    exact hAs c (List.mem_of_mem_head? (by simp [hc]))
  · intro c hc
    rw [List.getLast?_append_cons] at hc
    obtain ⟨m, M', rfl⟩ := List.exists_cons_of_ne_nil hM0
    rw [List.getLast?_cons_cons] at hc
    exact hMs c (List.mem_of_mem_getLast? (by simp [hc]))

/-- The netmask form of `validate_subnet`'s input: after stripping and
whitespace-splitting, the candidate CIDR text is rebuilt from the
address part and the popcount of the netmask. -/
theorem parse_candidate_netmask_form {A M : PyStr} {m : Nat}
    (hA0 : A ≠ []) (hAs : ∀ c ∈ A, pyIsSpace c = false) (hM : parseIPv4 M = some m) :
    parse_candidate (A ++ ' ' :: M) =
      ipNetwork (A ++ '/' :: natDigits (popcount m)) false := by
  have hM0 : M ≠ [] := parseIPv4_nonempty hM
  have hMs : ∀ c ∈ M, pyIsSpace c = false := parseIPv4_no_space hM
  unfold parse_candidate
  rw [pyStrip_pair hA0 hAs hM0 hMs]
  have hsp : (' ' ∈ A ++ ' ' :: M) := List.mem_append_right _ (List.mem_cons_self _ _)
  rw [if_pos hsp]
  rw [pySplitWs_pair hAs hA0 hMs hM0]
  simp only [hM]

/-- The CIDR form of `validate_subnet`'s input: an address text that
parses, a slash, a decimal prefix length at most 32. -/
theorem parse_candidate_cidr {A : PyStr} {a p : Nat}
    (hA : parseIPv4 A = some a) (hp : p ≤ 32) :
    parse_candidate (A ++ '/' :: natDigits p) = .ok ⟨a - a % 2 ^ (32 - p), p⟩ := by
  have hchar := parseIPv4_charset hA
  have hns : ∀ c ∈ A ++ '/' :: natDigits p, pyIsSpace c = false := by
    intro c hc
    rcases List.mem_append.mp hc with hcA | hcr
    · rcases hchar c hcA with rfl | hd
      · decide
      · exact isDigitChar_not_space hd
    · rcases List.mem_cons.mp hcr with rfl | hcd
      · decide
      · exact isDigitChar_not_space (natDigits_all_digits _ c hcd)
  rw [parse_candidate_no_space hns]
  have hslashA : '/' ∉ A := by
    intro hmem
    rcases hchar _ hmem with h | h
    · exact absurd h (by decide)
    · exact isDigitChar_ne_slash h rfl
  unfold ipNetwork
  rw [splitOn_append _ hslashA, splitOn_of_not_mem (slash_not_mem_natDigits p)]
  simp only [hA, parsePrefixLen_natDigits_le hp]
  rfl

/-!
## Overlap-scan lemmas
-/

theorem checkOverlaps_no_overlap {n : IPv4Network} {E : List PyStr}
    (h : ∀ s ∈ E, ∃ y, ipNetwork s false = .ok y ∧ n.overlaps y = false) :
    checkOverlaps n E = .ok n := by
  induction E with
  | nil => rfl
  | cons e rest ih =>
    obtain ⟨y, hy, hov⟩ := h e (List.mem_cons_self _ _)
    simp only [checkOverlaps, hy, hov, Bool.false_eq_true, if_false]
    exact ih (fun s hs => h s (List.mem_cons_of_mem _ hs))

theorem checkOverlaps_first_overlap {n x : IPv4Network} {E1 : List PyStr} (e : PyStr)
    (E2 : List PyStr)
    (h1 : ∀ s ∈ E1, ∃ y, ipNetwork s false = .ok y ∧ n.overlaps y = false)
    (hx : ipNetwork e false = .ok x) (hov : n.overlaps x = true) :
    checkOverlaps n (E1 ++ e :: E2) =
      .error (.valueError (toL "Subnet " ++ n.render ++
        toL " overlaps with existing subnet " ++ x.render)) := by
  induction E1 with
  | nil =>
    simp only [List.nil_append, checkOverlaps, hx, hov, if_true]
  | cons f rest ih =>
    obtain ⟨y, hy, hovf⟩ := h1 f (List.mem_cons_self _ _)
    simp only [List.cons_append, checkOverlaps, hy, hovf, Bool.false_eq_true, if_false]
    exact ih (fun s hs => h1 s (List.mem_cons_of_mem _ hs))

theorem validate_parse_of_ok {S : PyStr} {n : IPv4Network}
    (hn : (validate_subnet S []).1 = .ok n) : parse_candidate S = .ok n := by
  have h := validate_subnet_fst S []
  rw [hn] at h
  cases hc : parse_candidate S with
  | ok m =>
    rw [hc] at h
    have hm : checkOverlaps m [] = Except.ok m := rfl
    rw [show (Except.ok m).bind (fun k => checkOverlaps k []) = Except.ok m from hm] at h
    rw [Except.ok.injEq] at h
    rw [h]
  | error e =>
    rw [hc] at h
    exact absurd h (by simp [Except.bind])

/-!
## Error classification: everything validate_subnet raises is a ValueError
-/

theorem mkNetwork_error_valueError {addr plen : Nat} {strict : Bool} {e : PyErr}
    (h : mkNetwork addr plen strict = .error e) : ∃ m, e = .valueError m := by
  unfold mkNetwork at h
  split at h
  · split at h
    · simp at h
    · rw [Except.error.injEq] at h
      exact ⟨_, h.symm⟩
  · simp at h

theorem ipNetwork_error_valueError {cs : PyStr} {strict : Bool} {e : PyErr}
    (h : ipNetwork cs strict = .error e) : ∃ m, e = .valueError m := by
  unfold ipNetwork at h
  split at h
  · split at h
    · exact mkNetwork_error_valueError h
    · rw [Except.error.injEq] at h
      exact ⟨_, h.symm⟩
  · split at h
    · split at h
      · exact mkNetwork_error_valueError h
      · rw [Except.error.injEq] at h
        exact ⟨_, h.symm⟩
    · rw [Except.error.injEq] at h
      exact ⟨_, h.symm⟩
  · rw [Except.error.injEq] at h
    exact ⟨_, h.symm⟩

theorem parse_candidate_error_valueError {S : PyStr} {e : PyErr}
    (h : parse_candidate S = .error e) : ∃ m, e = .valueError m := by
  unfold parse_candidate at h
  split at h
  · split at h
    · split at h
      · exact ipNetwork_error_valueError h
      · rw [Except.error.injEq] at h
        exact ⟨_, h.symm⟩
    · rw [Except.error.injEq] at h
      exact ⟨_, h.symm⟩
  · exact ipNetwork_error_valueError h

theorem checkOverlaps_error_valueError {n : IPv4Network} {E : List PyStr} {e : PyErr}
    (h : checkOverlaps n E = .error e) : ∃ m, e = .valueError m := by
  induction E with
  | nil => simp [checkOverlaps] at h
  | cons f rest ih =>
    rw [checkOverlaps] at h
    split at h
    · rw [Except.error.injEq] at h
      rename_i herr
      exact h ▸ ipNetwork_error_valueError herr
    · split at h
      · rw [Except.error.injEq] at h
        exact ⟨_, h.symm⟩
      · exact ih h

/-!
## Claim C1
-/

/-- C1: for every candidate whose parse succeeds, `validate_subnet`
scans the existing subnets in the order given: with no overlapping
entry it returns the normalized candidate unchanged, and at the first
overlapping entry it raises a `ValueError` naming both the candidate
and that conflicting existing subnet, independently of everything after
it in the list (no further checks). -/
theorem c1_validate_scans_in_order (S : PyStr) (n : IPv4Network)
    (hn : (validate_subnet S []).1 = .ok n) :
    (∀ E, (∀ s ∈ E, ∃ y, ipNetwork s false = .ok y ∧ n.overlaps y = false) →
      (validate_subnet S E).1 = .ok n) ∧
    (∀ E1 e E2 x, (∀ s ∈ E1, ∃ y, ipNetwork s false = .ok y ∧ n.overlaps y = false) →
      ipNetwork e false = .ok x → n.overlaps x = true →
      (validate_subnet S (E1 ++ e :: E2)).1 =
        .error (.valueError (toL "Subnet " ++ n.render ++
          toL " overlaps with existing subnet " ++ x.render))) := by
  have hp : parse_candidate S = .ok n := validate_parse_of_ok hn
  constructor
  · intro E hE
    rw [validate_subnet_fst, hp]
    exact checkOverlaps_no_overlap hE
  · intro E1 e E2 x hE1 hx hov
    rw [validate_subnet_fst, hp]
    exact checkOverlaps_first_overlap e E2 hE1 hx hov

/-- Witness for C1 at a concrete input: `10.8.0.0/24` with one
non-overlapping entry before the conflicting `10.8.0.128/25`, followed
by an unparseable entry that is never examined. -/
theorem c1_witness :
    (validate_subnet (toL "10.8.0.0/24") []).1 = .ok ⟨168296448, 24⟩ ∧
    (validate_subnet (toL "10.8.0.0/24")
        [toL "192.168.0.0/24", toL "10.8.0.128/25", toL "bogus"]).1 =
      .error (.valueError
        (toL "Subnet 10.8.0.0/24 overlaps with existing subnet 10.8.0.128/25")) := by
  have hn : (validate_subnet (toL "10.8.0.0/24") []).1 = .ok ⟨168296448, 24⟩ := by decide
  have hE1 : ∀ s ∈ [toL "192.168.0.0/24"],
      ∃ y, ipNetwork s false = .ok y ∧ IPv4Network.overlaps ⟨168296448, 24⟩ y = false := by
    intro s hs
    rw [List.mem_singleton] at hs
    subst hs
    exact ⟨⟨3232235520, 24⟩, by decide, by decide⟩
  have h2 := (c1_validate_scans_in_order (toL "10.8.0.0/24") ⟨168296448, 24⟩ hn).2
    [toL "192.168.0.0/24"] (toL "10.8.0.128/25") [toL "bogus"] ⟨168296576, 25⟩
    hE1 (by decide) (by decide)
  refine ⟨hn, ?_⟩
  rw [List.singleton_append] at h2
  rw [h2]
  decide

/-!
## Claim C5
-/

/-- C5: for every space-free nonempty address text `A` and every text
`M` that parses as a dotted-decimal IPv4 netmask with integer value `m`,
validating `A M` is the same as validating `A/k` where `k` is the number
of set bits of `m` — including the emitted log records. -/
theorem c5_netmask_form_equivalence (A M : PyStr) (es : List PyStr) (m : Nat)
    (hA0 : A ≠ []) (hAs : ∀ c ∈ A, pyIsSpace c = false) (hM : parseIPv4 M = some m) :
    validate_subnet (A ++ ' ' :: M) es =
      validate_subnet (A ++ '/' :: natDigits (popcount m)) es := by
  have hns2 : ∀ c ∈ A ++ '/' :: natDigits (popcount m), pyIsSpace c = false := by
    intro c hc
    rcases List.mem_append.mp hc with hcA | hcr
    · exact hAs c hcA
    · rcases List.mem_cons.mp hcr with rfl | hcd
      · decide
      · exact isDigitChar_not_space (natDigits_all_digits _ c hcd)
  have hcore := (parse_candidate_netmask_form hA0 hAs hM).trans
    (parse_candidate_no_space hns2).symm
  unfold validate_subnet
  rw [hcore]

/-- Witness for C5 at the spec's own example:
`10.8.0.0 255.255.255.0` is validated exactly like `10.8.0.0/24`. -/
theorem c5_witness :
    parseIPv4 (toL "255.255.255.0") = some 4294967040 ∧
    validate_subnet (toL "10.8.0.0 255.255.255.0") [] =
      validate_subnet (toL "10.8.0.0/24") [] := by
  have hM : parseIPv4 (toL "255.255.255.0") = some 4294967040 := by decide
  have h := c5_netmask_form_equivalence (toL "10.8.0.0") (toL "255.255.255.0") [] 4294967040
    (by decide) (by decide) hM
  refine ⟨hM, ?_⟩
  rw [show toL "10.8.0.0 255.255.255.0" = toL "10.8.0.0" ++ ' ' :: toL "255.255.255.0" by decide]
  rw [show toL "10.8.0.0/24" = toL "10.8.0.0" ++ '/' :: natDigits (popcount 4294967040) by decide]
  exact h

/-!
## Claim C6
-/

/-- C6: for every valid dotted-decimal address text (host bits set or
not) and prefix length at most 32, `validate_subnet` accepts the CIDR
input in non-strict mode and masks the host bits off: the result is the
network whose address is the input address with its low `32 - p` bits
cleared. -/
theorem c6_host_bits_masked (A : PyStr) (a p : Nat)
    (hA : parseIPv4 A = some a) (hp : p ≤ 32) :
    (validate_subnet (A ++ '/' :: natDigits p) []).1 =
      .ok ⟨a - a % 2 ^ (32 - p), p⟩ := by
  rw [validate_subnet_fst, parse_candidate_cidr hA hp]
  rfl

/-- Witness for C6 at the spec's own example: `10.8.0.5/24` is accepted
and equals `10.8.0.0/24`. -/
theorem c6_witness :
    parseIPv4 (toL "10.8.0.5") = some 168296453 ∧
    (validate_subnet (toL "10.8.0.5/24") []).1 = .ok ⟨168296448, 24⟩ ∧
    (validate_subnet (toL "10.8.0.5/24") []).1 = (validate_subnet (toL "10.8.0.0/24") []).1 := by
  have h1 : parseIPv4 (toL "10.8.0.5") = some 168296453 := by decide
  have h := c6_host_bits_masked (toL "10.8.0.5") 168296453 24 h1 (by norm_num)
  rw [show toL "10.8.0.5" ++ '/' :: natDigits 24 = toL "10.8.0.5/24" by decide] at h
  refine ⟨h1, ?_, ?_⟩
  · rw [h]; decide
  · rw [h]; decide

/-!
## Claim C4
-/

/-- C4, counterexample to the claim as stated: a malformed input and an
overlap both surface as the single Python type `ValueError` (not two
distinct typed kinds), and the core does log — a successful validation
emits an info-level record. -/
theorem c4_counterexample :
    (validate_subnet (toL "=bogus=") []).1 =
      .error (.valueError (toL "=bogus= does not appear to be an IPv4 network")) ∧
    (validate_subnet (toL "10.8.0.0/24") [toL "10.8.0.0/24"]).1 =
      .error (.valueError
        (toL "Subnet 10.8.0.0/24 overlaps with existing subnet 10.8.0.0/24")) ∧
    (validate_subnet (toL "10.8.0.0/24") []).2 =
      [⟨.info, toL "Validated subnet: 10.8.0.0/24"⟩] := by
  refine ⟨by decide, by decide, by decide⟩

/-- C4 as amended: every failure of `validate_subnet` is a `ValueError`
(malformed text and overlaps alike, distinguished only by message); the
error is propagated unchanged to the caller, after being logged at error
level; a success is logged at info level. -/
theorem c4_valueerror_propagated_and_logged (S : PyStr) (es : List PyStr) :
    (∀ e, (validate_subnet S es).1 = .error e →
      ∃ m, e = .valueError m ∧
        (validate_subnet S es).2 = [⟨.error, toL "Invalid subnet: " ++ m⟩]) ∧
    (∀ n, (validate_subnet S es).1 = .ok n →
      (validate_subnet S es).2 = [⟨.info, toL "Validated subnet: " ++ n.render⟩]) := by
  cases hcore : (parse_candidate S).bind (fun k => checkOverlaps k es) with
  | ok n =>
    have hv : validate_subnet S es = (.ok n, [⟨.info, toL "Validated subnet: " ++ n.render⟩]) := by
      unfold validate_subnet
      rw [hcore]
    constructor
    · intro e he
      rw [hv] at he
      exact absurd he (by simp)
    · intro n' hn'
      rw [hv] at hn' ⊢
      rw [Except.ok.injEq] at hn'
      rw [hn']
  | error e =>
    have hval : ∃ m, e = .valueError m := by
      cases hpc : parse_candidate S with
      | ok k =>
        rw [hpc] at hcore
        exact checkOverlaps_error_valueError hcore
      | error f =>
        rw [hpc] at hcore
        rw [show (Except.error f).bind (fun k => checkOverlaps k es) = Except.error f from rfl,
          Except.error.injEq] at hcore
        exact hcore ▸ parse_candidate_error_valueError hpc
    obtain ⟨m, rfl⟩ := hval
    have hv : validate_subnet S es =
        (.error (.valueError m), [⟨.error, toL "Invalid subnet: " ++ m⟩]) := by
      unfold validate_subnet
      rw [hcore]
    constructor
    · intro e' he'
      rw [hv] at he'
      rw [Except.error.injEq] at he'
      exact ⟨m, he'.symm, by rw [hv]⟩
    · intro n hn
      rw [hv] at hn
      exact absurd hn (by simp)

/-- Witness for C4's amended statement at a concrete malformed input:
the returned error and the logged record agree. -/
theorem c4_witness :
    (validate_subnet (toL "=bogus=") []).1 =
      .error (.valueError (toL "=bogus= does not appear to be an IPv4 network")) ∧
    (validate_subnet (toL "=bogus=") []).2 =
      [⟨.error, toL "Invalid subnet: =bogus= does not appear to be an IPv4 network"⟩] := by
  have h1 : (validate_subnet (toL "=bogus=") []).1 =
      .error (.valueError (toL "=bogus= does not appear to be an IPv4 network")) := by decide
  obtain ⟨m, hm, hlog⟩ := (c4_valueerror_propagated_and_logged (toL "=bogus=") []).1 _ h1
  refine ⟨h1, ?_⟩
  rw [hlog]
  rw [PyErr.valueError.injEq] at hm
  rw [← hm]
  decide

/-!
## CSV store lemmas
-/

theorem pyBind_ok {α β : Type} (x : α) (f : α → Except PyErr β) :
    (Except.ok x >>= f) = f x := rfl

theorem dictGetE_hdr_name (row : List PyStr) :
    dictGetE hdrRow row (toL "Name") = .ok (row.get? 0) := by
  unfold dictGetE
  rw [show lastIdxOf hdrRow (toL "Name") = some 0 by decide]

theorem dictGetE_hdr_subnet (row : List PyStr) :
    dictGetE hdrRow row (toL "Subnet") = .ok (row.get? 1) := by
  unfold dictGetE
  rw [show lastIdxOf hdrRow (toL "Subnet") = some 1 by decide]

theorem length_two_ne_nil {r : List PyStr} (h : r.length = 2) : r ≠ [] := by
  rintro rfl
  simp at h

theorem findLoop_not_found {data : List (List PyStr)} {N : PyStr}
    (h : ∀ r ∈ data, r.get? 0 ≠ some N) :
    findLoop hdrRow N data = .ok none := by
  induction data with
  | nil => rfl
  | cons row rest ih =>
    rw [findLoop]
    split
    · exact ih (fun r hr => h r (List.mem_cons_of_mem _ hr))
    · simp only [dictGetE_hdr_name, pyBind_ok]
      rw [if_neg (h row (List.mem_cons_self _ _))]
      exact ih (fun r hr => h r (List.mem_cons_of_mem _ hr))

/-- A matching record is returned via a strict re-parse of its stored
subnet text, independently of everything after it. -/
theorem findLoop_hit {data : List (List PyStr)} {N rs : PyStr} {v : IPv4Network}
    (rest : List (List PyStr))
    (h : ∀ r ∈ data, r.get? 0 ≠ some N) (hparse : ipNetwork rs true = .ok v) :
    findLoop hdrRow N (data ++ [N, rs] :: rest) = .ok (some v) := by
  induction data with
  | nil =>
    rw [List.nil_append, findLoop]
    rw [if_neg (by simp : ¬ ([N, rs] : List PyStr) = [])]
    simp only [dictGetE_hdr_name, pyBind_ok]
    rw [if_pos (show ([N, rs] : List PyStr).get? 0 = some N from rfl)]
    simp only [dictGetE_hdr_subnet, pyBind_ok]
    show (ipNetworkOfCell (some rs) true >>= fun net => Except.ok (some net)) = .ok (some v)
    rw [show ipNetworkOfCell (some rs) true = ipNetwork rs true from rfl, hparse]
    rfl
  | cons row rst ih =>
    rw [List.cons_append, findLoop]
    split
    · exact ih (fun r hr => h r (List.mem_cons_of_mem _ hr))
    · simp only [dictGetE_hdr_name, pyBind_ok]
      rw [if_neg (h row (List.mem_cons_self _ _))]
      exact ih (fun r hr => h r (List.mem_cons_of_mem _ hr))

theorem keptRows_filter {data : List (List PyStr)} {N : PyStr}
    (h : ∀ r ∈ data, r ≠ []) :
    keptRows hdrRow N data = .ok (data.filter (fun r => decide (r.get? 0 ≠ some N))) := by
  induction data with
  | nil => rfl
  | cons row rest ih =>
    rw [keptRows]
    rw [if_neg (h row (List.mem_cons_self _ _))]
    simp only [dictGetE_hdr_name, pyBind_ok, ih (fun r hr => h r (List.mem_cons_of_mem _ hr))]
    by_cases hN : row.get? 0 = some N
    · rw [if_pos hN]
      rw [List.filter_cons_of_neg (by simpa using hN)]
    · rw [if_neg hN]
      rw [List.filter_cons_of_pos (by simpa using hN)]

theorem writeRowBack_id {a b : PyStr} : writeRowBack hdrRow [a, b] = .ok [a, b] := rfl

theorem writeRows_id {rows : List (List PyStr)} (h : ∀ r ∈ rows, r.length = 2) :
    writeRows hdrRow rows = .ok rows := by
  induction rows with
  | nil => rfl
  | cons row rest ih =>
    obtain ⟨a, b, rfl⟩ := List.length_eq_two.mp (h row (List.mem_cons_self _ _))
    rw [writeRows]
    simp only [writeRowBack_id, pyBind_ok,
      ih (fun r hr => h r (List.mem_cons_of_mem _ hr))]

theorem remove_wf {data : List (List PyStr)} {N : PyStr}
    (hwf : ∀ r ∈ data, r.length = 2) :
    remove_client_from_csv (some (hdrRow :: data)) N =
      .ok (some (hdrRow :: data.filter (fun r => decide (r.get? 0 ≠ some N)))) := by
  show (keptRows hdrRow N data >>= fun kept =>
    writeRows hdrRow kept >>= fun written => Except.ok (some (hdrRow :: written))) = _
  rw [keptRows_filter (fun r hr => length_two_ne_nil (hwf r hr)), pyBind_ok]
  rw [writeRows_id (fun r hr => hwf r (List.mem_of_mem_filter hr)), pyBind_ok]

theorem parse_candidate_wf {S : PyStr} {n : IPv4Network}
    (h : parse_candidate S = .ok n) : n.wf := by
  unfold parse_candidate at h
  split at h
  · split at h
    · split at h
      · exact ipNetwork_wf h
      · simp at h
    · simp at h
  · exact ipNetwork_wf h

/-!
## Claim C7
-/

/-- C7: on a well-formed store, `remove_client_from_csv` rewrites the
store keeping exactly the records whose name differs from `N` — all
matches removed, the others unchanged and in order —, is a no-op rewrite
when nothing matches, leaves `get_subnet_by_name N` reporting not-found
afterwards, and silently does nothing when the store file is absent. -/
theorem c7_remove_all_matches (data : List (List PyStr)) (N : PyStr)
    (hwf : ∀ r ∈ data, r.length = 2) :
    remove_client_from_csv (some (hdrRow :: data)) N =
      .ok (some (hdrRow :: data.filter (fun r => decide (r.get? 0 ≠ some N)))) ∧
    ((∀ r ∈ data, r.get? 0 ≠ some N) →
      remove_client_from_csv (some (hdrRow :: data)) N = .ok (some (hdrRow :: data))) ∧
    get_subnet_by_name
      (some (hdrRow :: data.filter (fun r => decide (r.get? 0 ≠ some N)))) N = .ok none ∧
    remove_client_from_csv none N = .ok none := by
  refine ⟨remove_wf hwf, ?_, ?_, rfl⟩
  · intro hall
    rw [remove_wf hwf, List.filter_eq_self.mpr (fun r hr => by simpa using hall r hr)]
  · show findLoop hdrRow N (data.filter (fun r => decide (r.get? 0 ≠ some N))) = .ok none
    exact findLoop_not_found (fun r hr => by simpa using List.of_mem_filter hr)

/-- Witness for C7: removing `a` removes both records named `a`, keeps
`b` in place, and a subsequent lookup of `a` reports not-found. -/
theorem c7_witness :
    remove_client_from_csv
        (some [hdrRow, [toL "a", toL "10.0.0.0/24"], [toL "b", toL "192.168.0.0/24"],
          [toL "a", toL "10.1.0.0/24"]]) (toL "a") =
      .ok (some [hdrRow, [toL "b", toL "192.168.0.0/24"]]) ∧
    get_subnet_by_name (some [hdrRow, [toL "b", toL "192.168.0.0/24"]]) (toL "a") = .ok none := by
  obtain ⟨h1, _, h3, _⟩ := c7_remove_all_matches
    [[toL "a", toL "10.0.0.0/24"], [toL "b", toL "192.168.0.0/24"], [toL "a", toL "10.1.0.0/24"]]
    (toL "a") (by decide)
  have hfil : ([[toL "a", toL "10.0.0.0/24"], [toL "b", toL "192.168.0.0/24"],
      [toL "a", toL "10.1.0.0/24"]].filter
        (fun r => decide (r.get? 0 ≠ some (toL "a")))) = [[toL "b", toL "192.168.0.0/24"]] := by
    decide
  rw [hfil] at h1 h3
  exact ⟨h1, h3⟩

/-!
## Claim C10
-/

/-- C10: when the store path exists as an empty file, appending a record
writes no header (the file "exists"), so the appended record is consumed
as the header by subsequent reads: the lookup of the appended name
reports not-found and the subnet listing is empty. -/
theorem c10_empty_file_header_swallow (N : PyStr) (S : IPv4Network) :
    save_subnet_to_csv (some []) N S = some [[N, S.render]] ∧
    get_subnet_by_name (some [[N, S.render]]) N = .ok none ∧
    load_existing_subnets (some [[N, S.render]]) = .ok [] :=
  ⟨rfl, rfl, rfl⟩

/-!
## Claim C2
-/

/-- C2, counterexample to the claim as stated: with a store already
holding a record named `a`, appending a new subnet under `a` and then
looking `a` up returns the earlier record's subnet (first match in file
order), not the appended one. -/
theorem c2_counterexample :
    (validate_subnet (toL "192.168.0.0/24") []).1 = .ok ⟨3232235520, 24⟩ ∧
    get_subnet_by_name
        (save_subnet_to_csv (some [hdrRow, [toL "a", toL "10.0.0.0/24"]])
          (toL "a") ⟨3232235520, 24⟩) (toL "a") =
      .ok (some ⟨167772160, 24⟩) ∧
    (⟨167772160, 24⟩ : IPv4Network) ≠ ⟨3232235520, 24⟩ := by
  refine ⟨by decide, by decide, by decide⟩

/-- C2 as amended: the round-trip holds provided the store is absent or
is well-formed with no existing record named `N`: after appending
`parse_subnet T`'s value under `N`, looking up `N` returns that very
network (rendered to CIDR text on write and re-parsed strictly on
read). -/
theorem c2_round_trip (file : FileState) (data : List (List PyStr)) (N T : PyStr)
    (n : IPv4Network)
    (hT : (validate_subnet T []).1 = .ok n)
    (hfile : file = none ∨
      (file = some (hdrRow :: data) ∧ ∀ r ∈ data, r.length = 2 ∧ r.get? 0 ≠ some N)) :
    get_subnet_by_name (save_subnet_to_csv file N n) N = .ok (some n) := by
  have hwfn : n.wf := parse_candidate_wf (validate_parse_of_ok hT)
  have hparse : ipNetwork n.render true = .ok n := ipNetwork_render_roundtrip hwfn
  rcases hfile with rfl | ⟨rfl, hdata⟩
  · exact @findLoop_hit [] N n.render n [] (fun r hr => absurd hr (List.not_mem_nil r)) hparse
  · show findLoop hdrRow N (data ++ [N, n.render] :: []) = .ok (some n)
    exact findLoop_hit [] (fun r hr => (hdata r hr).2) hparse

/-- Witness for C2's amended statement: a fresh (absent) store, one
append, one lookup. -/
theorem c2_witness :
    (validate_subnet (toL "10.9.0.0/24") []).1 = .ok ⟨168361984, 24⟩ ∧
    get_subnet_by_name (save_subnet_to_csv none (toL "siteA") ⟨168361984, 24⟩)
      (toL "siteA") = .ok (some ⟨168361984, 24⟩) := by
  have hT : (validate_subnet (toL "10.9.0.0/24") []).1 = .ok ⟨168361984, 24⟩ := by decide
  exact ⟨hT, c2_round_trip none [] (toL "siteA") (toL "10.9.0.0/24") ⟨168361984, 24⟩ hT
    (Or.inl rfl)⟩

/-!
## Claim C3
-/

theorem writtenUpTo_id {rows : List (List PyStr)} (h : ∀ r ∈ rows, r.length = 2) :
    writtenUpTo hdrRow rows = rows := by
  induction rows with
  | nil => rfl
  | cons row rest ih =>
    obtain ⟨a, b, rfl⟩ := List.length_eq_two.mp (h row (List.mem_cons_self _ _))
    rw [writtenUpTo, writeRowBack_id]
    rw [ih (fun r hr => h r (List.mem_cons_of_mem _ hr))]

/-- C3, counterexample to the claim as stated: while
`remove_client_from_csv` rewrites a two-record store, the truncated
empty file is an observable on-disk state — it is neither the prior
contents nor the final contents, so a failure between truncation and
completion does not leave the prior store intact, and the observable
truncated state is incompatible with a temporary-file-plus-rename
strategy. -/
theorem c3_counterexample :
    some [] ∈ remove_write_states
      (some [hdrRow, [toL "a", toL "10.0.0.0/24"], [toL "b", toL "192.168.0.0/24"]])
      (toL "a") ∧
    (some [] : FileState) ≠
      some [hdrRow, [toL "a", toL "10.0.0.0/24"], [toL "b", toL "192.168.0.0/24"]] ∧
    remove_client_from_csv
        (some [hdrRow, [toL "a", toL "10.0.0.0/24"], [toL "b", toL "192.168.0.0/24"]])
        (toL "a") = .ok (some [hdrRow, [toL "b", toL "192.168.0.0/24"]]) ∧
    (some [] : FileState) ≠ some [hdrRow, [toL "b", toL "192.168.0.0/24"]] := by
  refine ⟨by decide, by decide, by decide, by decide⟩

/-- C3 as amended: `remove_client_from_csv` is a direct in-place rewrite
with no temporary file: on a well-formed store its observable on-disk
states are, in order, the prior contents (during the read), the
truncated empty file (reopening the same path with mode `"w"`), and the
file after the header and after each successive retained record; the
final state is the completed full rewrite.  A failure mid-write
therefore leaves one of the intermediate states, not the prior
contents. -/
theorem c3_inplace_rewrite_trace (data : List (List PyStr)) (N : PyStr)
    (hwf : ∀ r ∈ data, r.length = 2) :
    remove_write_states (some (hdrRow :: data)) N =
      some (hdrRow :: data) :: some [] ::
        (List.range ((data.filter (fun r => decide (r.get? 0 ≠ some N))).length + 1)).map
          (fun i => some (hdrRow ::
            (data.filter (fun r => decide (r.get? 0 ≠ some N))).take i)) ∧
    (remove_write_states (some (hdrRow :: data)) N).getLast? =
      some (some (hdrRow :: data.filter (fun r => decide (r.get? 0 ≠ some N)))) := by
  have hkept := @keptRows_filter data N (fun r hr => length_two_ne_nil (hwf r hr))
  have hfwf : ∀ r ∈ data.filter (fun r => decide (r.get? 0 ≠ some N)), r.length = 2 :=
    fun r hr => hwf r (List.mem_of_mem_filter hr)
  have htrace : remove_write_states (some (hdrRow :: data)) N =
      some (hdrRow :: data) :: some [] ::
        (List.range ((data.filter (fun r => decide (r.get? 0 ≠ some N))).length + 1)).map
          (fun i => some (hdrRow ::
            (data.filter (fun r => decide (r.get? 0 ≠ some N))).take i)) := by
    simp only [remove_write_states, hkept, writtenUpTo_id hfwf]
  refine ⟨htrace, ?_⟩
  rw [htrace]
  rw [List.range_succ, List.map_append, List.map_cons, List.map_nil]
  rw [show ∀ (x y : FileState) (l : List FileState) (z : FileState),
      x :: y :: (l ++ [z]) = (x :: y :: l) ++ [z] from fun x y l z => rfl]
  rw [List.getLast?_concat]
  rw [List.take_length]

/-!
## Python dict lemmas
-/

theorem exceptBind_ok {α β : Type} (x : α) (f : α → Except PyErr β) :
    (Except.ok x).bind f = f x := rfl

theorem find_map_set {d : PyDict} {k : Option PyStr} {v : IPv4Network}
    (hany : d.any (fun p => p.1 = k) = true) :
    pyDictGet (d.map (fun p => if p.1 = k then (k, v) else p)) k = some v := by
  induction d with
  | nil => simp at hany
  | cons p rest ih =>
    by_cases hk : p.1 = k
    · simp only [List.map_cons, if_pos hk]
      unfold pyDictGet
      rw [List.find?_cons_of_pos _ (by simp)]
      rfl
    · simp only [List.map_cons, if_neg hk]
      unfold pyDictGet at ih ⊢
      rw [List.find?_cons_of_neg _ (by simpa using hk)]
      apply ih
      simp only [List.any_cons, Bool.or_eq_true] at hany
      rcases hany with h | h
      · exact absurd (by simpa using h) hk
      · exact h

theorem find_append_set {d : PyDict} {k : Option PyStr} {v : IPv4Network}
    (hnone : d.any (fun p => p.1 = k) = false) :
    pyDictGet (d ++ [(k, v)]) k = some v := by
  induction d with
  | nil =>
    unfold pyDictGet
    rw [List.nil_append, List.find?_cons_of_pos _ (by simp)]
    rfl
  | cons p rest ih =>
    simp only [List.any_cons, Bool.or_eq_false_iff] at hnone
    unfold pyDictGet at ih ⊢
    rw [List.cons_append, List.find?_cons_of_neg _ (by simpa using hnone.1)]
    exact ih hnone.2

theorem pyDictGet_set_same (d : PyDict) (k : Option PyStr) (v : IPv4Network) :
    pyDictGet (pyDictSet d k v) k = some v := by
  unfold pyDictSet
  split
  · exact find_map_set (by assumption)
  · rename_i h
    exact find_append_set (Bool.eq_false_iff.mpr h)

theorem find_map_other {d : PyDict} {k k' : Option PyStr} {v : IPv4Network} (hne : k' ≠ k) :
    pyDictGet (d.map (fun p => if p.1 = k then (k, v) else p)) k' = pyDictGet d k' := by
  induction d with
  | nil => rfl
  | cons p rest ih =>
    by_cases hk : p.1 = k
    · simp only [List.map_cons, if_pos hk]
      unfold pyDictGet at ih ⊢
      rw [List.find?_cons_of_neg _
        (by simp only [decide_eq_true_eq]; exact fun h => hne h.symm)]
      rw [List.find?_cons_of_neg _
        (by simp only [decide_eq_true_eq]; exact fun h => hne (h.symm.trans hk))]
      exact ih
    · simp only [List.map_cons, if_neg hk]
      unfold pyDictGet at ih ⊢
      by_cases hk' : p.1 = k'
      · rw [List.find?_cons_of_pos _ (by simpa using hk'),
          List.find?_cons_of_pos _ (by simpa using hk')]
      · rw [List.find?_cons_of_neg _ (by simpa using hk'),
          List.find?_cons_of_neg _ (by simpa using hk')]
        exact ih

theorem find_append_other {d : PyDict} {k k' : Option PyStr} {v : IPv4Network} (hne : k' ≠ k) :
    pyDictGet (d ++ [(k, v)]) k' = pyDictGet d k' := by
  induction d with
  | nil =>
    unfold pyDictGet
    rw [List.nil_append, List.find?_cons_of_neg _
      (by simp only [decide_eq_true_eq]; exact fun h => hne h.symm)]
  | cons p rest ih =>
    unfold pyDictGet at ih ⊢
    by_cases hk' : p.1 = k'
    · rw [List.cons_append, List.find?_cons_of_pos _ (by simpa using hk'),
        List.find?_cons_of_pos _ (by simpa using hk')]
    · rw [List.cons_append, List.find?_cons_of_neg _ (by simpa using hk'),
        List.find?_cons_of_neg _ (by simpa using hk')]
      exact ih

theorem pyDictGet_set_other {d : PyDict} {k k' : Option PyStr} {v : IPv4Network}
    (hne : k' ≠ k) : pyDictGet (pyDictSet d k v) k' = pyDictGet d k' := by
  unfold pyDictSet
  split
  · exact find_map_other hne
  · exact find_append_other hne

theorem mem_pyDictSet {d : PyDict} {k : Option PyStr} {v : IPv4Network}
    {q : Option PyStr × IPv4Network} (hq : q ∈ pyDictSet d k v) :
    q = (k, v) ∨ (q ∈ d ∧ q.1 ≠ k) := by
  unfold pyDictSet at hq
  split at hq
  · obtain ⟨p, hp, heq⟩ := List.mem_map.mp hq
    by_cases hk : p.1 = k
    · rw [if_pos hk] at heq
      exact Or.inl heq.symm
    · rw [if_neg hk] at heq
      exact Or.inr ⟨heq ▸ hp, heq ▸ hk⟩
  · rename_i hany
    rcases List.mem_append.mp hq with h | h
    · refine Or.inr ⟨h, fun hk => ?_⟩
      exact hany (List.any_eq_true.mpr ⟨q, h, by simpa using hk⟩)
    · rw [List.mem_singleton] at h
      exact Or.inl h

theorem key_mem_pyDictSet_self (d : PyDict) (k : Option PyStr) (v : IPv4Network) :
    ∃ w, (k, w) ∈ pyDictSet d k v := by
  unfold pyDictSet
  split
  · rename_i hany
    obtain ⟨p, hp, hpk⟩ := List.any_eq_true.mp hany
    exact ⟨v, List.mem_map.mpr ⟨p, hp, by rw [if_pos (by simpa using hpk)]⟩⟩
  · exact ⟨v, List.mem_append_right _ (List.mem_singleton.mpr rfl)⟩

theorem key_mem_pyDictSet_mono {d : PyDict} {k' : Option PyStr} (k : Option PyStr)
    (v : IPv4Network) (h : ∃ w, (k', w) ∈ d) : ∃ w, (k', w) ∈ pyDictSet d k v := by
  by_cases hk : k' = k
  · subst hk
    exact key_mem_pyDictSet_self d k' v
  · obtain ⟨w, hw⟩ := h
    unfold pyDictSet
    split
    · exact ⟨w, List.mem_map.mpr ⟨(k', w), hw, by rw [if_neg (by simpa using hk)]⟩⟩
    · exact ⟨w, List.mem_append_left _ hw⟩

/-!
## clientLoop lemmas
-/

theorem role_cond_false {n : PyStr} (h : n ∉ roleNames) :
    (roleNames.any (fun r => some n = some r)) = false := by
  rw [List.any_eq_false]
  intro r hr
  simp only [decide_eq_true_eq, Option.some.injEq]
  rintro rfl
  exact h hr

theorem clientLoop_cons_role {n : PyStr} (s : PyStr) (rows : List (List PyStr)) (acc : PyDict)
    (hrole : n ∈ roleNames) :
    clientLoop hdrRow acc ([n, s] :: rows) = clientLoop hdrRow acc rows := by
  rw [clientLoop]
  rw [if_neg (by simp : ¬ ([n, s] : List PyStr) = [])]
  simp only [dictGetE_hdr_name, pyBind_ok, List.get?_cons_zero]
  rw [if_pos (by
    simp only [List.any_eq_true, decide_eq_true_eq, Option.some.injEq]
    exact ⟨n, hrole, rfl⟩)]

theorem clientLoop_cons_client {n s : PyStr} {v : IPv4Network}
    (rows : List (List PyStr)) (acc : PyDict)
    (hrole : n ∉ roleNames) (hv : ipNetwork s true = .ok v) :
    clientLoop hdrRow acc ([n, s] :: rows) =
      clientLoop hdrRow (pyDictSet acc (some n) v) rows := by
  rw [clientLoop]
  rw [if_neg (by simp : ¬ ([n, s] : List PyStr) = [])]
  simp only [dictGetE_hdr_name, pyBind_ok, List.get?_cons_zero]
  rw [if_neg (by rw [role_cond_false hrole]; exact Bool.false_ne_true)]
  simp only [dictGetE_hdr_subnet, pyBind_ok]
  rw [show ([n, s] : List PyStr).get? 1 = some s from rfl]
  rw [show ipNetworkOfCell (some s) true = ipNetwork s true from rfl, hv]
  rfl

theorem clientLoop_append (xs ys : List (List PyStr)) (acc : PyDict) :
    clientLoop hdrRow acc (xs ++ ys) =
      (clientLoop hdrRow acc xs).bind (fun d => clientLoop hdrRow d ys) := by
  induction xs generalizing acc with
  | nil => rfl
  | cons row rest ih =>
    rw [List.cons_append]
    rw [clientLoop, clientLoop]
    by_cases hrow : row = []
    · rw [if_pos hrow, if_pos hrow]
      exact ih acc
    · rw [if_neg hrow, if_neg hrow]
      simp only [dictGetE_hdr_name, pyBind_ok]
      by_cases hrole : (roleNames.any (fun r => row.get? 0 = some r)) = true
      · rw [if_pos hrole, if_pos hrole]
        exact ih acc
      · rw [if_neg hrole, if_neg hrole]
        simp only [dictGetE_hdr_subnet, pyBind_ok]
        cases hnet : ipNetworkOfCell (row.get? 1) true with
        | ok v =>
          simp only [pyBind_ok]
          exact ih (pyDictSet acc (row.get? 0) v)
        | error e => rfl

theorem clientLoop_preserve :
    ∀ (rows : List (List PyStr)) (N : PyStr),
    (∀ r ∈ rows, r.length = 2) →
    (∀ r ∈ rows, r.get? 0 ≠ some N) →
    (∀ n s, [n, s] ∈ rows → n ∉ roleNames → ∃ v, ipNetwork s true = .ok v) →
    ∀ acc, ∃ d, clientLoop hdrRow acc rows = .ok d ∧
      pyDictGet d (some N) = pyDictGet acc (some N) := by
  intro rows
  induction rows with
  | nil => exact fun N _ _ _ acc => ⟨acc, rfl, rfl⟩
  | cons row rest ih =>
    intro N hwf hnotN hparse acc
    obtain ⟨n, s, rfl⟩ := List.length_eq_two.mp (hwf _ (List.mem_cons_self _ _))
    have hwf' := fun r hr => hwf r (List.mem_cons_of_mem _ hr)
    have hnotN' := fun r hr => hnotN r (List.mem_cons_of_mem _ hr)
    have hparse' : ∀ n' s', [n', s'] ∈ rest → n' ∉ roleNames →
        ∃ v, ipNetwork s' true = .ok v :=
      fun n' s' h hn => hparse n' s' (List.mem_cons_of_mem _ h) hn
    by_cases hrole : n ∈ roleNames
    · rw [clientLoop_cons_role s rest acc hrole]
      exact ih N hwf' hnotN' hparse' acc
    · obtain ⟨v, hv⟩ := hparse n s (List.mem_cons_self _ _) hrole
      rw [clientLoop_cons_client rest acc hrole hv]
      obtain ⟨d, hd, hpres⟩ := ih N hwf' hnotN' hparse' (pyDictSet acc (some n) v)
      refine ⟨d, hd, ?_⟩
      have hne : (some N : Option PyStr) ≠ some n :=
        Ne.symm (show (some n : Option PyStr) ≠ some N from hnotN _ (List.mem_cons_self _ _))
      rw [hpres, pyDictGet_set_other hne]

theorem clientLoop_spec :
    ∀ (data : List (List PyStr)),
    (∀ r ∈ data, r.length = 2) →
    (∀ n s, [n, s] ∈ data → n ∉ roleNames → ∃ v, ipNetwork s true = .ok v) →
    ∀ acc, ∃ d, clientLoop hdrRow acc data = .ok d ∧
      (∀ q ∈ d, q ∈ acc ∨ ∃ n s, q.1 = some n ∧ [n, s] ∈ data ∧ n ∉ roleNames ∧
        ipNetwork s true = .ok q.2) ∧
      (∀ n s, [n, s] ∈ data → n ∉ roleNames → ∃ w, (some n, w) ∈ d) ∧
      (∀ k, (∃ w, (k, w) ∈ acc) → ∃ w, (k, w) ∈ d) := by
  intro data
  induction data with
  | nil =>
    exact fun _ _ acc =>
      ⟨acc, rfl, fun q hq => Or.inl hq, fun n s h => absurd h (List.not_mem_nil _),
        fun k h => h⟩
  | cons row rest ih =>
    intro hwf hparse acc
    obtain ⟨n, s, rfl⟩ := List.length_eq_two.mp (hwf _ (List.mem_cons_self _ _))
    have hwf' := fun r hr => hwf r (List.mem_cons_of_mem _ hr)
    have hparse' : ∀ n' s', [n', s'] ∈ rest → n' ∉ roleNames →
        ∃ v, ipNetwork s' true = .ok v :=
      fun n' s' h hn => hparse n' s' (List.mem_cons_of_mem _ h) hn
    by_cases hrole : n ∈ roleNames
    · rw [clientLoop_cons_role s rest acc hrole]
      obtain ⟨d, hd, hsound, hcomp, hpres⟩ := ih hwf' hparse' acc
      refine ⟨d, hd, ?_, ?_, hpres⟩
      · intro q hq
        rcases hsound q hq with h | ⟨n', s', h1, h2, h3, h4⟩
        · exact Or.inl h
        · exact Or.inr ⟨n', s', h1, List.mem_cons_of_mem _ h2, h3, h4⟩
      · intro n' s' hmem hn'
        rcases List.mem_cons.mp hmem with heq | hmem'
        · obtain ⟨rfl, rfl⟩ : n' = n ∧ s' = s := by simpa using heq
          exact absurd hrole hn'
        · exact hcomp n' s' hmem' hn'
    · obtain ⟨v, hv⟩ := hparse n s (List.mem_cons_self _ _) hrole
      rw [clientLoop_cons_client rest acc hrole hv]
      obtain ⟨d, hd, hsound, hcomp, hpres⟩ := ih hwf' hparse' (pyDictSet acc (some n) v)
      refine ⟨d, hd, ?_, ?_, ?_⟩
      · intro q hq
        rcases hsound q hq with h | ⟨n', s', h1, h2, h3, h4⟩
        · rcases mem_pyDictSet h with rfl | ⟨hacc, _⟩
          · exact Or.inr ⟨n, s, rfl, List.mem_cons_self _ _, hrole, hv⟩
          · exact Or.inl hacc
        · exact Or.inr ⟨n', s', h1, List.mem_cons_of_mem _ h2, h3, h4⟩
      · intro n' s' hmem hn'
        rcases List.mem_cons.mp hmem with heq | hmem'
        · obtain ⟨hnn, hss⟩ : n' = n ∧ s' = s := by simpa using heq
          rw [hnn]
          exact hpres (some n) (key_mem_pyDictSet_self acc (some n) v)
        · exact hcomp n' s' hmem' hn'
      · intro k hk
        exact hpres k (key_mem_pyDictSet_mono _ _ hk)

/-!
## Claim C8
-/

/-- C8: on a well-formed store whose client subnets parse,
`get_client_subnets` returns exactly the allocations whose name is not
one of the two fixed role names: every returned binding comes from a
record with a non-role name (with its strictly parsed subnet), and every
record with a non-role name contributes a binding. -/
theorem c8_client_filter (data : List (List PyStr))
    (hwf : ∀ r ∈ data, r.length = 2)
    (hparse : ∀ n s, [n, s] ∈ data → n ∉ roleNames → ∃ v, ipNetwork s true = .ok v) :
    ∃ d, get_client_subnets (some (hdrRow :: data)) = .ok d ∧
      (∀ q ∈ d, ∃ n s, q.1 = some n ∧ [n, s] ∈ data ∧ n ∉ roleNames ∧
        ipNetwork s true = .ok q.2) ∧
      (∀ n s, [n, s] ∈ data → n ∉ roleNames → ∃ w, (some n, w) ∈ d) := by
  obtain ⟨d, hd, hsound, hcomp, _⟩ := clientLoop_spec data hwf hparse []
  refine ⟨d, hd, ?_, hcomp⟩
  intro q hq
  rcases hsound q hq with h | h
  · exact absurd h (List.not_mem_nil q)
  · exact h

/-- Witness for C8 at the spec's concrete scenario: a role record and a
client record; only the client appears in the result. -/
theorem c8_witness :
    get_client_subnets (some [hdrRow, [toL "openvpn_tunnel_subnet", toL "10.8.0.0/24"],
      [toL "siteA", toL "10.255.254.0/24"]]) =
      .ok [(some (toL "siteA"), ⟨184548864, 24⟩)] ∧
    (∃ d, get_client_subnets (some [hdrRow, [toL "openvpn_tunnel_subnet", toL "10.8.0.0/24"],
        [toL "siteA", toL "10.255.254.0/24"]]) = .ok d ∧
      ∃ w, (some (toL "siteA"), w) ∈ d) := by
  have hparse : ∀ n s,
      [n, s] ∈ [[toL "openvpn_tunnel_subnet", toL "10.8.0.0/24"],
        [toL "siteA", toL "10.255.254.0/24"]] →
      n ∉ roleNames → ∃ v, ipNetwork s true = .ok v := by
    intro n s hm hn
    rcases List.mem_cons.mp hm with heq | hm'
    · obtain ⟨rfl, rfl⟩ : n = toL "openvpn_tunnel_subnet" ∧ s = toL "10.8.0.0/24" := by
        simpa using heq
      exact absurd (by decide) hn
    · rw [List.mem_singleton] at hm'
      obtain ⟨rfl, rfl⟩ : n = toL "siteA" ∧ s = toL "10.255.254.0/24" := by simpa using hm'
      exact ⟨⟨184548864, 24⟩, by decide⟩
  obtain ⟨d, hd, _, hcomp⟩ := c8_client_filter
    [[toL "openvpn_tunnel_subnet", toL "10.8.0.0/24"], [toL "siteA", toL "10.255.254.0/24"]]
    (by decide) hparse
  have hval : get_client_subnets (some [hdrRow,
      [toL "openvpn_tunnel_subnet", toL "10.8.0.0/24"],
      [toL "siteA", toL "10.255.254.0/24"]]) =
      .ok [(some (toL "siteA"), ⟨184548864, 24⟩)] := by decide
  refine ⟨hval, d, hd, ?_⟩
  exact hcomp (toL "siteA") (toL "10.255.254.0/24") (by simp) (by decide)

/-!
## Claim C9
-/

/-- C9: with two records bound to the same non-role name `N` and
different subnets, `get_subnet_by_name` returns the earlier record's
subnet (first match in file order) while `get_client_subnets` binds `N`
to the later record's subnet (dict overwrite) — the two lookup paths
disagree. -/
theorem c9_duplicate_divergence (d1 d2 d3 : List (List PyStr)) (N s1 s2 : PyStr)
    (v1 v2 : IPv4Network)
    (hrole : N ∉ roleNames)
    (hwf : ∀ r ∈ d1 ++ d2 ++ d3, r.length = 2)
    (hN : ∀ r ∈ d1 ++ d2 ++ d3, r.get? 0 ≠ some N)
    (hparse : ∀ n s, [n, s] ∈ d1 ++ d2 ++ d3 → n ∉ roleNames →
      ∃ v, ipNetwork s true = .ok v)
    (h1 : ipNetwork s1 true = .ok v1) (h2 : ipNetwork s2 true = .ok v2)
    (hv : v1 ≠ v2) :
    get_subnet_by_name (some (hdrRow :: (d1 ++ [N, s1] :: (d2 ++ [N, s2] :: d3)))) N =
      .ok (some v1) ∧
    ∃ d, get_client_subnets (some (hdrRow :: (d1 ++ [N, s1] :: (d2 ++ [N, s2] :: d3)))) =
      .ok d ∧ pyDictGet d (some N) = some v2 ∧ some v2 ≠ some v1 := by
  have hm1 : ∀ r ∈ d1, r ∈ d1 ++ d2 ++ d3 :=
    fun r hr => List.mem_append_left _ (List.mem_append_left _ hr)
  have hm2 : ∀ r ∈ d2, r ∈ d1 ++ d2 ++ d3 :=
    fun r hr => List.mem_append_left _ (List.mem_append_right _ hr)
  have hm3 : ∀ r ∈ d3, r ∈ d1 ++ d2 ++ d3 := fun r hr => List.mem_append_right _ hr
  constructor
  · exact findLoop_hit _ (fun r hr => hN r (hm1 r hr)) h1
  · show ∃ d, clientLoop hdrRow [] (d1 ++ [N, s1] :: (d2 ++ [N, s2] :: d3)) = .ok d ∧
      pyDictGet d (some N) = some v2 ∧ some v2 ≠ some v1
    obtain ⟨dA, hdA, hpA⟩ := clientLoop_preserve d1 N
      (fun r hr => hwf r (hm1 r hr)) (fun r hr => hN r (hm1 r hr))
      (fun n s hm hn => hparse n s (hm1 _ hm) hn) []
    obtain ⟨dB, hdB, hpB⟩ := clientLoop_preserve d2 N
      (fun r hr => hwf r (hm2 r hr)) (fun r hr => hN r (hm2 r hr))
      (fun n s hm hn => hparse n s (hm2 _ hm) hn) (pyDictSet dA (some N) v1)
    obtain ⟨dC, hdC, hpC⟩ := clientLoop_preserve d3 N
      (fun r hr => hwf r (hm3 r hr)) (fun r hr => hN r (hm3 r hr))
      (fun n s hm hn => hparse n s (hm3 _ hm) hn) (pyDictSet dB (some N) v2)
    refine ⟨dC, ?_, ?_, by simpa using hv.symm⟩
    · rw [clientLoop_append d1 _ [], hdA, exceptBind_ok]
      rw [clientLoop_cons_client _ _ hrole h1]
      rw [clientLoop_append d2 _ _, hdB, exceptBind_ok]
      rw [clientLoop_cons_client _ _ hrole h2]
      exact hdC
    · rw [hpC, pyDictGet_set_same]

/-- Witness for C9: two records named `a`, bound to `10.0.0.0/24` and
`192.168.5.0/24`; the name lookup returns the first, the client listing
the second. -/
theorem c9_witness :
    get_subnet_by_name
        (some [hdrRow, [toL "a", toL "10.0.0.0/24"], [toL "a", toL "192.168.5.0/24"]])
        (toL "a") = .ok (some ⟨167772160, 24⟩) ∧
    (∃ d, get_client_subnets
        (some [hdrRow, [toL "a", toL "10.0.0.0/24"], [toL "a", toL "192.168.5.0/24"]]) =
      .ok d ∧ pyDictGet d (some (toL "a")) = some ⟨3232236800, 24⟩ ∧
      (some (⟨3232236800, 24⟩ : IPv4Network) : Option IPv4Network) ≠ some ⟨167772160, 24⟩) := by
  have h := c9_duplicate_divergence [] [] [] (toL "a") (toL "10.0.0.0/24")
    (toL "192.168.5.0/24") ⟨167772160, 24⟩ ⟨3232236800, 24⟩ (by decide)
    (fun r hr => absurd hr (by simp)) (fun r hr => absurd hr (by simp))
    (fun n s hm => absurd hm (by simp)) (by decide) (by decide) (by decide)
  exact h

/-- Witness for C3's amended statement: removing `a` from a two-record
store passes through the truncated file and the header-only file before
reaching the full rewrite. -/
theorem c3_witness :
    remove_write_states
        (some [hdrRow, [toL "a", toL "10.0.0.0/24"], [toL "b", toL "192.168.0.0/24"]])
        (toL "a") =
      [some [hdrRow, [toL "a", toL "10.0.0.0/24"], [toL "b", toL "192.168.0.0/24"]],
        some [], some [hdrRow], some [hdrRow, [toL "b", toL "192.168.0.0/24"]]] ∧
    (remove_write_states
        (some [hdrRow, [toL "a", toL "10.0.0.0/24"], [toL "b", toL "192.168.0.0/24"]])
        (toL "a")).getLast? = some (some [hdrRow, [toL "b", toL "192.168.0.0/24"]]) := by
  obtain ⟨h1, h2⟩ := c3_inplace_rewrite_trace
    [[toL "a", toL "10.0.0.0/24"], [toL "b", toL "192.168.0.0/24"]] (toL "a") (by decide)
  constructor
  · rw [h1]
    decide
  · rw [h2]
    decide
